import Mathlib

/-!
Verification development for the book_chat repository.

The file shallowly embeds the core of the repository:
* `filter_by_criteria` (src/query_functions.py) — the Criteria Filter;
* `find_similar_chunks` / `retrieve_similar_chunks` — the Similarity
  Retriever pipeline (the scoring/sorting body lives in the external
  genai_toolbox package, so it is modelled from the specification);
* `extract_content` / `create_hierarchy` / `add_hierarchy_keys` /
  `extract_paragraphs` / `eliminate_fragments` (src/extraction_functions.py)
  — the Structural Extractor, the hierarchy keying pass and the Paragraph
  Flattener;
* the Chapter/Title Resolver, whose source is not part of the repository
  snapshot and is therefore modelled from the specification.

Python dictionaries are embedded as association lists in insertion order;
`dict.get` is embedded as first-match lookup that returns a `none`-like
sentinel for absent keys, matching Python's conflation of "missing key"
and "stored None" under `.get`.
-/

namespace BookChat

/-! ## Values and dictionaries (Criteria Filter data model)

`filter_by_criteria` works over JSON-like records.  A `Value` is a stored
field value; `Value.vNone` plays the role of Python's `None`, which
`dict.get` also returns for a missing key. -/

inductive Value where
  | vStr : String → Value
  | vNat : Nat → Value
  | vNone : Value
deriving DecidableEq, Repr

/-- A record (a Python dict) as an association list in insertion order. -/
abbrev Record := List (String × Value)

/-- `d.get(k)`: first binding of `k`, or the `None` sentinel when absent
(Python's `dict.get` returns `None` in both cases). -/
def dictGet (d : Record) (k : String) : Value :=
  match d.find? (fun p => p.1 == k) with
  | some p => p.2
  | none => Value.vNone

/-- The `field_mapping` argument: filter-field name → record field name. -/
abbrev FieldMap := List (String × String)

/-- `field_mapping[k]` guarded by `k in field_mapping`: `some` iff present. -/
def mapLookup (m : FieldMap) (k : String) : Option String :=
  (m.find? (fun p => p.1 == k)).map (fun p => p.2)

/-- One conjunct of the `all(...)` generator in `filter_by_criteria`
(src/query_functions.py lines 55-60): a constraint whose filter-field is
absent from `field_mapping`, or whose required value is `None`, is skipped
by the generator's `if` clause (hence vacuously satisfied); otherwise the
record's mapped field must equal the required value. -/
def constraint_ok (m : FieldMap) (item fi : Record) (ff : String) : Bool :=
  match mapLookup m ff with
  | none => true
  | some mf =>
      if dictGet fi ff == Value.vNone then true
      else dictGet item mf == dictGet fi ff

/-- The `all(... for filter_field in filter_item ...)` test of
`filter_by_criteria`: conjunction over the keys of one constraint-set. -/
def matches_filter_item (m : FieldMap) (item fi : Record) : Bool :=
  (fi.map Prod.fst).all (constraint_ok m item fi)

/-- `filter_by_criteria` (src/query_functions.py lines 14-68): empty
`filter_list` returns `dict_list` unchanged; otherwise keep the items for
which `any` constraint-set has `all` of its applicable constraints
satisfied. -/
def filter_by_criteria (dict_list : List Record) (filter_list : List Record)
    (m : FieldMap) : List Record :=
  if filter_list.isEmpty then dict_list
  else dict_list.filter (fun item => filter_list.any (matches_filter_item m item))

/-! Spec-side satisfaction predicate, written from the words of claim C1:
"a constraint-set is satisfied by a record when every constraint in it
whose filter-field is present in the field mapping and whose required
value is non-null has the record's mapped field equal to that required
value". -/

/-- The claim's notion of a record satisfying one constraint-set. -/
def satisfiesConstraintSetSpec (m : FieldMap) (r cs : Record) : Prop :=
  ∀ ff ∈ cs.map Prod.fst, ∀ mf, mapLookup m ff = some mf →
    dictGet cs ff ≠ Value.vNone → dictGet r mf = dictGet cs ff

instance (m : FieldMap) (r cs : Record) :
    Decidable (satisfiesConstraintSetSpec m r cs) := by
  unfold satisfiesConstraintSetSpec
  infer_instance

/-! ## Similarity Retriever

`search_vector_db` and `_retrieve_similar_chunks` (src/query_functions.py
lines 236-283 and 313-361) delegate scoring, thresholding, sorting, the
delta cutoff and truncation to `find_similar_chunks` of the external
genai_toolbox package, whose source is not part of this repository.  That
body is therefore modelled from the specification (§4.4).  Similarity
scores are rationals; the embedding/cosine collaborator is abstracted as
a function `sim` from chunks to scores, and the LLM-built vector-db query
is absorbed into `sim` (both are external capabilities per the spec). -/

/-- Descending comparison on scored chunks, used as the sort order. -/
def chunkLE {α : Type} (a b : α × ℚ) : Bool := decide (b.2 ≤ a.2)

/-- Modelled from the spec: `find_similar_chunks` (genai_toolbox, not under
src/), following §4.4 steps 2-7: score every chunk, discard those with
similarity below `similarity_threshold`, sort by similarity descending
with a stable sort (ties keep corpus order), discard chunks more than
`max_similarity_delta` below the top survivor, truncate to `filter_limit`,
and attach the similarity to each returned chunk. -/
def find_similar_chunks {α : Type} (sim : α → ℚ) (corpus : List α)
    (similarity_threshold : ℚ) (filter_limit : Nat)
    (max_similarity_delta : ℚ) : List (α × ℚ) :=
  let scored := corpus.map (fun c => (c, sim c))
  let survivors := scored.filter (fun p => decide (similarity_threshold ≤ p.2))
  let ranked := survivors.mergeSort chunkLE
  match ranked with
  | [] => []
  | top :: _ =>
      (ranked.filter (fun p =>
        decide (top.2 - p.2 ≤ max_similarity_delta))).take filter_limit

/-- `_retrieve_similar_chunks` (src/query_functions.py lines 313-361):
call `find_similar_chunks`; when the result is empty, log a warning and
return the empty list, otherwise return the result unchanged. -/
def retrieve_similar_chunks {α : Type} (sim : α → ℚ) (extracted_list : List α)
    (similarity_threshold : ℚ) (filter_limit : Nat)
    (max_similarity_delta : ℚ) : List (α × ℚ) :=
  let similar_chunks :=
    find_similar_chunks sim extracted_list similarity_threshold filter_limit
      max_similarity_delta
  if similar_chunks.isEmpty then [] else similar_chunks

/-- `search_vector_db` (src/query_functions.py lines 236-283): build the
vector-db query (an external LLM call, absorbed into `sim`) and return
`_retrieve_similar_chunks` on it verbatim. -/
def search_vector_db {α : Type} (sim : α → ℚ) (dict_list : List α)
    (similarity_threshold : ℚ) (filter_limit : Nat)
    (max_similarity_delta : ℚ) : List (α × ℚ) :=
  retrieve_similar_chunks sim dict_list similarity_threshold filter_limit
    max_similarity_delta

/-! ## Structural Extractor data model

`extract_content` (src/extraction_functions.py lines 187-251) produces a
flat list of content-item dicts; they are embedded as the tagged union
`ContentItem`.  Its input is the list of elements that
`soup.find_all([...])` yields in document order; the DOM traversal is the
external parsing library, so an `Element` carries exactly the data the
source reads off each element: tag name, collapsed text, `src`/`alt`
attributes, `class` list, and whether `element.find_all(['p','h1','h2',
'h3','img','span'])` is non-empty (`hasBlockDescendants`). -/

inductive ContentItem where
  | heading : Nat → String → ContentItem
  | paragraph : String → ContentItem
  | image : String → String → ContentItem
  | span : List String → String → ContentItem
deriving DecidableEq, Repr

structure Element where
  name : String
  text : String
  src : String
  alt : String
  classes : List String
  hasBlockDescendants : Bool
deriving DecidableEq, Repr

/-- Python `str.strip()`: drop whitespace from both ends.  (Embedded at
the character-list level so that it evaluates inside the kernel.) -/
def pyStrip (s : String) : String :=
  String.mk
    (((s.toList.dropWhile Char.isWhitespace).reverse.dropWhile
        Char.isWhitespace).reverse)

/-- Python `text.split("\n\n")`: greedy left-to-right split on the
two-newline separator; an empty input yields one empty piece. -/
def splitOnBlankLine : List Char → List (List Char)
  | [] => [[]]
  | '\n' :: '\n' :: rest => [] :: splitOnBlankLine rest
  | c :: rest =>
      match splitOnBlankLine rest with
      | [] => [[c]]
      | h :: t => (c :: h) :: t

/-- `[p.strip() for p in element.text.split("\n\n") if p.strip()]`. -/
def splitParagraphs (text : String) : List String :=
  ((splitOnBlankLine text.toList).map (fun cs => pyStrip (String.mk cs))).filter
    (fun p => p ≠ "")

/-- `int(element.name[1])` for a tag name such as `"h2"`: the decimal
value of the character at index 1 (`0` when absent — unreachable for the
`h1`/`h2`/`h3` names this is applied to). -/
def headingLevelOf (name : String) : Nat :=
  match name.toList with
  | _ :: c :: _ => c.toNat - 48
  | _ => 0

/-- The tag list passed to `soup.find_all` in `extract_content`. -/
def contentTags : List String := ["h1", "h2", "h3", "p", "img", "span", "div", "li"]

/-- The body of the `for element in soup.find_all(...)` loop of
`extract_content`: the if/elif chain classifying one element.  `div`/`li`
elements with no block descendants are split into paragraphs on blank
lines; heading levels come from `int(element.name[1])`. -/
def classifyElement (e : Element) : List ContentItem :=
  if e.name ∈ (["h1", "h2", "h3"] : List String) then
    [ContentItem.heading (headingLevelOf e.name) (pyStrip e.text)]
  else if e.name = "p" then
    [ContentItem.paragraph (pyStrip e.text)]
  else if e.name ∈ (["div", "li"] : List String) then
    if e.hasBlockDescendants then []
    else (splitParagraphs e.text).map ContentItem.paragraph
  else if e.name = "img" then
    [ContentItem.image e.src e.alt]
  else if e.name = "span" then
    [ContentItem.span e.classes (pyStrip e.text)]
  else []

/-- `extract_content`: restrict the document's element list to the tags
named in the `find_all` call, then classify each element in order.
(The returned Python value is `{'content': [...]}`; the wrapper dict is
represented by the list itself.) -/
def extract_content (doc : List Element) : List ContentItem :=
  (doc.filter (fun e => e.name ∈ contentTags)).flatMap classifyElement

/-! ## Hierarchy builder

`create_hierarchy` (src/extraction_functions.py lines 253-335) builds a
list of section dicts; a section's content holds plain items and
subsection dicts, and a subsection's content holds further items.  The
loop's mutable `current_section` / `current_subsection` variables become
an explicit fold state: the open subsection (when any) is stored next to
the open section and is placed at the end of the section's content when
it closes, which is where the mutated-in-place Python dict ends up, since
nothing is appended directly to a section while one of its subsections is
open.  Subsection content holds plain items only, per the data-model
invariant of the spec (§3: a Subsection never contains another
Subsection) and per what `create_hierarchy` can produce. -/

inductive Node where
  | item : ContentItem → Node
  | subsection : String → List ContentItem → Node
deriving DecidableEq, Repr

structure Sec where
  heading : Option String
  content : List Node
deriving DecidableEq, Repr

/-- The open section of the fold: closed content plus the still-open
subsection, if any. -/
structure OpenSection where
  heading : Option String
  content : List Node
  openSub : Option (String × List ContentItem)
deriving DecidableEq, Repr

/-- Fold state of `create_hierarchy`: finished sections plus the open one. -/
structure HState where
  done : List Sec
  cur : Option OpenSection
deriving DecidableEq, Repr

/-- Close the open subsection, if any, into a content suffix. -/
def subFlush : Option (String × List ContentItem) → List Node
  | some (h, c) => [Node.subsection h c]
  | none => []

/-- Close an open section: its content followed by its open subsection. -/
def closeSection (o : OpenSection) : Sec :=
  ⟨o.heading, o.content ++ subFlush o.openSub⟩

/-- The shared body of the `paragraph` branch and the final `else` branch
of `create_hierarchy` (their Python code is identical): open an untitled
section when none is open, then append the item to the open subsection
when one exists, otherwise to the section itself. -/
def pushContent (st : HState) (it : ContentItem) : HState :=
  let o := st.cur.getD ⟨none, [], none⟩
  match o.openSub with
  | some (h, c) => { st with cur := some ⟨o.heading, o.content, some (h, c ++ [it])⟩ }
  | none => { st with cur := some ⟨o.heading, o.content ++ [Node.item it], none⟩ }

/-- One iteration of the `for item in content['content']` loop:
level-1/2 headings close the open section and open a titled one
(resetting the open subsection); a level-3 heading opens a subsection
only when a section is already open; everything else — paragraphs,
images, spans, and heading levels other than 1-3 — goes through
`pushContent`. -/
def hstep (st : HState) (it : ContentItem) : HState :=
  match it with
  | ContentItem.heading l t =>
      if l = 1 ∨ l = 2 then
        ⟨st.done ++ (st.cur.map closeSection).toList, some ⟨some t, [], none⟩⟩
      else if l = 3 then
        match st.cur with
        | some o => { st with cur := some ⟨o.heading, o.content ++ subFlush o.openSub, some (t, [])⟩ }
        | none => pushContent st it
      else pushContent st it
  | _ => pushContent st it

/-- `create_hierarchy`: fold the item list, then append the still-open
section, if any. -/
def create_hierarchy (content : List ContentItem) : List Sec :=
  let st := content.foldl hstep ⟨[], none⟩
  st.done ++ (st.cur.map closeSection).toList

/-! ## Hierarchy keying

`add_hierarchy_keys` (src/extraction_functions.py lines 337-375) walks
the hierarchy and stamps every node with `section` / `subsection` keys.
Inside one content list the walk threads `current_section` and
`current_subsection` across the iterations; note that
`current_subsection`, once set by a subsection node, persists for the
later siblings of that subsection in the same list. -/

structure KItem where
  it : ContentItem
  ksec : Option String
  ksub : Option String
deriving DecidableEq, Repr

inductive KNode where
  | item : KItem → KNode
  | subsection : String → Option String → Option String → List KItem → KNode
deriving DecidableEq, Repr

structure KSec where
  heading : Option String
  ksec : Option String
  content : List KNode
deriving DecidableEq, Repr

/-- The inner `traverse(items, current_section, current_subsection)` of
`add_hierarchy_keys`, restricted to the nodes below the top level.  A
leaf item is stamped with the walk's current labels; a subsection node
updates `current_subsection` to its own heading (also for its later
siblings in the same list), is stamped, and every item of its content is
stamped with both labels. -/
def keyNodes (cs : Option String) : Option String → List Node → List KNode
  | _, [] => []
  | csub, Node.item it :: rest => KNode.item ⟨it, cs, csub⟩ :: keyNodes cs csub rest
  | _, Node.subsection h c :: rest =>
      KNode.subsection h cs (some h) (c.map (fun it => ⟨it, cs, some h⟩)) ::
        keyNodes cs (some h) rest

/-- `add_hierarchy_keys`: at the top level every section sets
`current_section` to its own heading, is stamped with it, and its
content is traversed with a fresh `current_subsection` of `None`. -/
def add_hierarchy_keys (h : List Sec) : List KSec :=
  h.map (fun s => ⟨s.heading, s.heading, keyNodes s.heading none s.content⟩)

/-! ## Paragraph Flattener

`extract_paragraphs` (src/extraction_functions.py lines 377-410) walks
the keyed hierarchy, turns every paragraph item into a flat record with
the book metadata and the item's stamped `section`/`subsection` keys, and
keeps the records whose token count reaches `min_paragraph_tokens`.  The
token counter `num_tokens_from_string` is an external genai_toolbox
capability and is abstracted as the function argument `numTokens`.  The
constant `'type': 'paragraph'` field of each record is omitted. -/

structure PRecord where
  text : String
  title : Option String
  chapter : Option String
  author : Option String
  publisher : Option String
  psec : Option String
  psub : Option String
deriving DecidableEq, Repr

/-- The `traverse` of `extract_paragraphs` on one keyed leaf item:
paragraph items produce a record (reading the stamped keys, as the
source does via `item.get("section")` / `item.get("subsection")`);
heading, image and span items are skipped. -/
def collectKItem (title chapter author publisher : Option String) :
    KItem → List PRecord
  | ⟨ContentItem.paragraph t, ks, ksb⟩ =>
      [⟨t, title, chapter, author, publisher, ks, ksb⟩]
  | _ => []

/-- The `traverse` of `extract_paragraphs` on one keyed node: a
subsection carries a `content` list and is recursed into. -/
def collectNode (title chapter author publisher : Option String) :
    KNode → List PRecord
  | KNode.item ki => collectKItem title chapter author publisher ki
  | KNode.subsection _ _ _ kis =>
      kis.flatMap (collectKItem title chapter author publisher)

/-- `traverse` over a keyed content list, in order. -/
def collectNodes (title chapter author publisher : Option String)
    (l : List KNode) : List PRecord :=
  l.flatMap (collectNode title chapter author publisher)

/-- `extract_paragraphs`: collect every paragraph record in walk order,
then keep those with `numTokens text ≥ min_paragraph_tokens`. -/
def extract_paragraphs (numTokens : String → Nat) (hierarchy : List KSec)
    (chapter author publisher title : Option String)
    (min_paragraph_tokens : Nat) : List PRecord :=
  (hierarchy.flatMap (fun s => collectNodes title chapter author publisher s.content)).filter
    (fun p => min_paragraph_tokens ≤ numTokens p.text)

/-! Spec-side view of the flattening walk, written from the words of
claim C6: every paragraph item together with the headings of its actually
enclosing section and subsection ("nearest enclosing containers"). -/

structure SpecPara where
  text : String
  sec : Option String
  sub : Option String
deriving DecidableEq, Repr

/-- The record the claims describe for one flattened paragraph: its text,
the supplied book metadata, and container labels. -/
def buildRecord (title chapter author publisher : Option String)
    (sp : SpecPara) : PRecord :=
  ⟨sp.text, title, chapter, author, publisher, sp.sec, sp.sub⟩

/-- Paragraphs of one leaf item with its enclosing-container labels. -/
def specItemParas (secH subH : Option String) : ContentItem → List SpecPara
  | ContentItem.paragraph t => [⟨t, secH, subH⟩]
  | _ => []

/-- Paragraphs of one node with the labels of its enclosing containers:
an item directly inside a section has no enclosing subsection. -/
def specNodeParas (secH : Option String) : Node → List SpecPara
  | Node.item it => specItemParas secH none it
  | Node.subsection h c => c.flatMap (specItemParas secH (some h))

/-- All paragraphs of a hierarchy with enclosing-container labels. -/
def specParagraphs (h : List Sec) : List SpecPara :=
  h.flatMap (fun s => s.content.flatMap (specNodeParas s.heading))

/-- After the first subsection of a section's content, only subsections
follow — the shape `create_hierarchy` produces, since once a subsection
is open every non-heading item is routed into it. -/
def goodTail : List Node → Bool
  | [] => true
  | Node.item _ :: _ => false
  | Node.subsection _ _ :: rest => goodTail rest

/-- A section content list as produced by `create_hierarchy`: a prefix of
plain items followed by subsections only. -/
def goodContent : List Node → Bool
  | [] => true
  | Node.item _ :: rest => goodContent rest
  | Node.subsection _ _ :: rest => goodTail rest

/-- Every section's content has the `create_hierarchy` shape. -/
def goodHierarchy (h : List Sec) : Bool :=
  h.all (fun s => goodContent s.content)

/-! ## ChapterMapping: `eliminate_fragments`

src/extraction_functions.py lines 80-102.  The table-of-contents mapping
is a Python dict iterated in insertion order; it is embedded as an
association list.  For every entry the base path is the part before the
first `'#'` (`file.split('#')[0]`), and an entry is added only when its
base path is not yet a key. -/

/-- `file.split("#")[0]`: the part of the path before the first `"#"`
(the whole path when no `"#"` occurs). -/
def baseOf (file : String) : String :=
  String.mk (file.toList.takeWhile (fun c => c ≠ '#'))

/-- Lookup in a string-valued mapping (first binding wins). -/
def tocLookup (m : List (String × String)) (k : String) : Option String :=
  (m.find? (fun p => p.1 == k)).map (fun p => p.2)

/-- The loop body of `eliminate_fragments`: add the entry under its base
path unless that base path is already a key. -/
def efStep (acc : List (String × String)) (ft : String × String) :
    List (String × String) :=
  if acc.any (fun p => p.1 == baseOf ft.1) then acc
  else acc ++ [(baseOf ft.1, ft.2)]

/-- `eliminate_fragments`: fold over the table-of-contents entries in
order, keeping the first title seen for each base path. -/
def eliminate_fragments (toc_mapping : List (String × String)) :
    List (String × String) :=
  toc_mapping.foldl efStep []

/-! ## Chapter/Title Resolver (modelled from the spec)

No resolver source is part of the repository snapshot (the spec's §4.2
describes it; only the extraction pipeline is under src/), so the
structural primary pass is modelled from the specification's words:
normalize whitespace; match the literal "CHAPTER" keyword tolerating
interleaved whitespace and any letter case; then a numeral or a
spelled-out number word from a precomputed word→number table (cardinals
one through ninety-nine with hyphenated compounds, plus "and"-joined and
hyphenated compounds of one/two/three hundred); format the number as
`"Chapter {n}"`; the stripped remainder of the heading, when non-empty,
is the title, and a bare chapter token defers the title to the next
section with a non-null heading.  The AI fallback and the
keyword-absent anywhere-match are external or out of the modelled
primary path. -/

/-- The whitespace-separated words of a character list (empty runs
dropped), as in Python `str.split()` with no argument. -/
def wordsAux : List Char → List Char → List (List Char)
  | [], cur => if cur.isEmpty then [] else [cur.reverse]
  | c :: rest, cur =>
      if c.isWhitespace then
        if cur.isEmpty then wordsAux rest [] else cur.reverse :: wordsAux rest []
      else wordsAux rest (c :: cur)

/-- Whitespace normalization: collapse runs of whitespace into single
spaces and strip the ends. -/
def normalize_whitespace (s : String) : String :=
  String.mk (List.intercalate [' '] (wordsAux s.toList []))

/-- Number words for 1-9. -/
def onesWords : List (String × Nat) :=
  [("one", 1), ("two", 2), ("three", 3), ("four", 4), ("five", 5),
   ("six", 6), ("seven", 7), ("eight", 8), ("nine", 9)]

/-- Number words for 10-19. -/
def teensWords : List (String × Nat) :=
  [("ten", 10), ("eleven", 11), ("twelve", 12), ("thirteen", 13),
   ("fourteen", 14), ("fifteen", 15), ("sixteen", 16), ("seventeen", 17),
   ("eighteen", 18), ("nineteen", 19)]

/-- Number words for the tens 20-90. -/
def tensWords : List (String × Nat) :=
  [("twenty", 20), ("thirty", 30), ("forty", 40), ("fifty", 50),
   ("sixty", 60), ("seventy", 70), ("eighty", 80), ("ninety", 90)]

/-- Words below one hundred: units, teens, tens, hyphenated compounds. -/
def smallNumberWords : List (String × Nat) :=
  onesWords ++ teensWords ++ tensWords ++
    tensWords.flatMap (fun tw =>
      onesWords.map (fun ow => (tw.1 ++ "-" ++ ow.1, tw.2 + ow.2)))

/-- The word→number table of the spec: 1-99 plus the "and"-joined and
fully hyphenated compound forms of one/two/three hundred. -/
def wordNumberTable : List (String × Nat) :=
  smallNumberWords ++
    ([("one", 100), ("two", 200), ("three", 300)].flatMap (fun hw =>
      [(hw.1 ++ " hundred", hw.2), (hw.1 ++ "-hundred", hw.2)] ++
        smallNumberWords.flatMap (fun sw =>
          [(hw.1 ++ " hundred and " ++ sw.1, hw.2 + sw.2),
           (hw.1 ++ "-hundred-and-" ++ sw.1, hw.2 + sw.2)])))

/-- Match the keyword's letters case-insensitively against the input,
skipping whitespace interleaved between them (so "C H A P T E R"
matches); returns the input remainder after the keyword. -/
def matchKeyword : List Char → List Char → Option (List Char)
  | kw, [] => if kw.isEmpty then some [] else none
  | kw, c :: cs =>
      match kw with
      | [] => some (c :: cs)
      | k :: ks =>
          if c.isWhitespace then matchKeyword (k :: ks) cs
          else if c.toLower = k then matchKeyword ks cs
          else none

/-- Strip a literal character sequence from the front of the input:
`some` remainder when the sequence is a prefix, `none` otherwise. -/
def stripLeadingSeq : List Char → List Char → Option (List Char)
  | [], s => some s
  | _ :: _, [] => none
  | k :: ks, c :: cs => if c = k then stripLeadingSeq ks cs else none

/-- Does a word matched at the front end on a word boundary, given the
remainder after it?  (No letter may follow, so "one" does not match
inside "oneself".) -/
def boundaryAfter : List Char → Bool
  | [] => true
  | c :: _ => !c.isAlpha

/-- `int(...)` on a run of decimal digits. -/
def digitsToNat (ds : List Char) : Nat :=
  ds.foldl (fun n c => 10 * n + (c.toNat - 48)) 0

/-- Parse the captured chapter number after the keyword: a digit run, or
else the longest word form of the table matching at the front (compared
lower-cased, ending on a word boundary).  Returns the number and the
remainder. -/
def parseChapterNumber (s : List Char) : Option (Nat × List Char) :=
  let t := s.dropWhile Char.isWhitespace
  match t with
  | [] => none
  | c :: _ =>
      if c.isDigit then
        let ds := t.takeWhile Char.isDigit
        some (digitsToNat ds, t.drop ds.length)
      else
        let lower := t.map Char.toLower
        let cands := wordNumberTable.filter (fun p =>
          match stripLeadingSeq p.1.toList lower with
          | some rem => boundaryAfter rem
          | none => false)
        match cands.foldl
            (fun best p =>
              match best with
              | none => some p
              | some q => if q.1.length < p.1.length then some p else some q)
            none with
        | some (w, n) => some (n, t.drop w.length)
        | none => none

/-- Modelled from the spec: attempt the chapter-number pattern on one
normalized heading.  On a match, return `"Chapter {n}"` together with the
stripped remainder (the title candidate) when it is non-empty. -/
def resolve_chapter_heading (heading : String) : Option (String × Option String) :=
  let norm := normalize_whitespace heading
  match matchKeyword ("chapter".toList) norm.toList with
  | none => none
  | some rest =>
      match parseChapterNumber rest with
      | none => none
      | some (n, rest2) =>
          let titleChars := rest2.dropWhile (fun c =>
            c.isWhitespace || c = '.' || c = ':')
          some ("Chapter " ++ toString n,
            if titleChars.isEmpty then none
            else some (pyStrip (String.mk titleChars)))

/-- First non-null section heading, normalized — the title source when a
heading was just the bare chapter token. -/
def firstSectionHeading (h : List Sec) : Option String :=
  (h.findSome? (fun s => s.heading)).map normalize_whitespace

/-- Modelled from the spec: the structural primary pass of the
Chapter/Title Resolver.  Iterate the sections in order; the first heading
matching the chapter-number pattern fixes the chapter; its remainder, when
non-empty, is the title, and otherwise the next section with a non-null
heading supplies the title.  Returns `(chapter, title)`, either possibly
null. -/
def determine_chapter_and_title : List Sec → Option String × Option String
  | [] => (none, none)
  | s :: rest =>
      match s.heading with
      | none => determine_chapter_and_title rest
      | some hd =>
          match resolve_chapter_heading hd with
          | some (ch, some t) => (some ch, some t)
          | some (ch, none) => (some ch, firstSectionHeading rest)
          | none => determine_chapter_and_title rest

lemma matches_filter_item_iff (m : FieldMap) (r cs : Record) :
    matches_filter_item m r cs = true ↔ satisfiesConstraintSetSpec m r cs := by
  unfold matches_filter_item satisfiesConstraintSetSpec
  rw [List.all_eq_true]
  constructor
  · intro h ff hff mf hmf hne
    have := h ff hff
    unfold constraint_ok at this
    rw [hmf] at this
    simp only [beq_iff_eq] at this
    split_ifs at this with hcase
    · exact absurd hcase hne
    · simpa using this
  · intro h ff hff
    unfold constraint_ok
    cases hmf : mapLookup m ff with
    | none => rfl
    | some mf =>
      by_cases hne : dictGet cs ff = Value.vNone
      · simp [hne]
      · have := h ff hff mf hmf hne
        simp [hne, this]

/-- C8: for every corpus list and every field mapping, calling
`filter_by_criteria` with an empty constraint-set list returns the full
corpus unchanged. -/
theorem filter_by_criteria_empty_filter_list (dict_list : List Record)
    (m : FieldMap) : filter_by_criteria dict_list [] m = dict_list := rfl

/-- C1 (amended): for every corpus list, every NON-EMPTY list of
constraint-sets, and every field mapping, `filter_by_criteria` returns
exactly those records of the corpus, in original corpus order, for which
at least one constraint-set is satisfied in the sense of
`satisfiesConstraintSetSpec` (disjunction across constraint-sets,
conjunction within one; unmapped-field or null-valued constraints are
ignored).  The restriction to non-empty constraint-set lists is forced:
for the empty list the code returns the whole corpus although no
constraint-set is satisfied (see the counterexample). -/
theorem filter_by_criteria_eq_spec_filter (dict_list filter_list : List Record)
    (m : FieldMap) (hne : filter_list ≠ []) :
    filter_by_criteria dict_list filter_list m =
      dict_list.filter
        (fun r => decide (∃ cs ∈ filter_list, satisfiesConstraintSetSpec m r cs)) := by
  unfold filter_by_criteria
  rw [if_neg (by simpa [List.isEmpty_iff] using hne)]
  apply List.filter_congr
  intro r _
  rw [Bool.eq_iff_iff, List.any_eq_true, decide_eq_true_eq]
  exact exists_congr (fun cs => and_congr_right (fun _ => matches_filter_item_iff m r cs))

/-- Witness for C1 at the test of spec §8 item 8: corpus of three
records, constraint-sets `[{book:"A",chapter:"1"},{book:"B"}]`, mapping
`{book→title, chapter→chapter}`. -/
theorem filter_by_criteria_eq_spec_filter_witness :
    ([[("book", Value.vStr "A"), ("chapter", Value.vStr "1")],
      [("book", Value.vStr "B")]] : List Record) ≠ [] ∧
    filter_by_criteria
        [[("title", Value.vStr "A"), ("chapter", Value.vStr "1")],
         [("title", Value.vStr "A"), ("chapter", Value.vStr "2")],
         [("title", Value.vStr "B"), ("chapter", Value.vStr "1")]]
        [[("book", Value.vStr "A"), ("chapter", Value.vStr "1")],
         [("book", Value.vStr "B")]]
        [("book", "title"), ("chapter", "chapter")] =
      ([[("title", Value.vStr "A"), ("chapter", Value.vStr "1")],
        [("title", Value.vStr "A"), ("chapter", Value.vStr "2")],
        [("title", Value.vStr "B"), ("chapter", Value.vStr "1")]] : List Record).filter
        (fun r => decide (∃ cs ∈
            ([[("book", Value.vStr "A"), ("chapter", Value.vStr "1")],
              [("book", Value.vStr "B")]] : List Record),
          satisfiesConstraintSetSpec [("book", "title"), ("chapter", "chapter")] r cs)) :=
  ⟨by simp,
   filter_by_criteria_eq_spec_filter _ _ _ (by simp)⟩

/-- C1 counterexample: with the EMPTY constraint-set list the code
returns the whole corpus, while the claim ("exactly those records for
which at least one constraint-set is satisfied") demands the empty list,
since a disjunction over no constraint-sets holds for no record.  So the
claim is false as stated, at corpus `[{"a": "x"}]`, constraint-set list
`[]`, field mapping `{}`. -/
theorem filter_by_criteria_empty_list_counterexample :
    filter_by_criteria [[("a", Value.vStr "x")]] [] [] ≠
      ([[("a", Value.vStr "x")]] : List Record).filter
        (fun r => decide (∃ cs ∈ ([] : List Record),
          satisfiesConstraintSetSpec [] r cs)) := by
  decide

/-- C9: a constraint-set all of whose constraints have unmapped fields or
null required values (in particular the empty constraint-set) is a
vacuous conjunction, so its presence in a non-empty constraint-set list
makes `filter_by_criteria` return the entire corpus. -/
theorem filter_by_criteria_vacuous_set (dict_list filter_list : List Record)
    (m : FieldMap) (cs : Record) (hmem : cs ∈ filter_list)
    (hvac : ∀ ff ∈ cs.map Prod.fst,
      mapLookup m ff = none ∨ dictGet cs ff = Value.vNone) :
    filter_by_criteria dict_list filter_list m = dict_list := by
  have hne : filter_list ≠ [] := by
    intro h
    rw [h] at hmem
    exact absurd hmem (List.not_mem_nil cs)
  unfold filter_by_criteria
  rw [if_neg (by simpa [List.isEmpty_iff] using hne)]
  apply List.filter_eq_self.mpr
  intro item _
  rw [List.any_eq_true]
  refine ⟨cs, hmem, ?_⟩
  unfold matches_filter_item
  rw [List.all_eq_true]
  intro ff hff
  unfold constraint_ok
  rcases hvac ff hff with hnone | hvnone
  · rw [hnone]
  · cases hmf : mapLookup m ff with
    | none => rfl
    | some mf => simp [hvnone]

/-- Witness for C9: constraint-set list `[{}]` whose only member is the
empty constraint-set; the two-record corpus passes through whole. -/
theorem filter_by_criteria_vacuous_set_witness :
    (([] : Record) ∈ ([[]] : List Record)) ∧
    (∀ ff ∈ ([] : Record).map Prod.fst,
      mapLookup [("book", "title")] ff = none ∨
        dictGet [] ff = Value.vNone) ∧
    filter_by_criteria
        [[("title", Value.vStr "A")], [("title", Value.vStr "B")]]
        [[]] [("book", "title")] =
      [[("title", Value.vStr "A")], [("title", Value.vStr "B")]] :=
  ⟨by simp, by simp,
   filter_by_criteria_vacuous_set _ _ _ [] (by simp) (by simp)⟩

lemma tocLookup_append_single (acc : List (String × String)) (b t k : String) :
    tocLookup (acc ++ [(b, t)]) k =
      (tocLookup acc k).or (if b == k then some t else none) := by
  unfold tocLookup
  rw [List.find?_append]
  cases hf : acc.find? (fun p => p.1 == k) with
  | some p => simp [Option.or]
  | none =>
    simp only [Option.map, Option.or]
    by_cases hb : b == k
    · simp [List.find?, hb]
    · simp [List.find?, hb]

lemma tocLookup_isSome_of_any (acc : List (String × String)) (k : String)
    (h : acc.any (fun p => p.1 == k) = true) : (tocLookup acc k).isSome := by
  rw [List.any_eq_true] at h
  obtain ⟨p, hp⟩ := Option.isSome_iff_exists.mp (List.find?_isSome.mpr h)
  unfold tocLookup
  rw [hp]
  rfl

lemma ef_foldl_lookup (l : List (String × String)) :
    ∀ (acc : List (String × String)) (k : String),
      tocLookup (l.foldl efStep acc) k =
        (tocLookup acc k).or
          ((l.find? (fun p => baseOf p.1 == k)).map (fun p => p.2)) := by
  induction l with
  | nil =>
    intro acc k
    simp
  | cons ft rest ih =>
    intro acc k
    rw [List.foldl_cons, ih]
    unfold efStep
    by_cases hany : acc.any (fun p => p.1 == baseOf ft.1) = true
    · rw [if_pos hany]
      by_cases hb : baseOf ft.1 = k
      · obtain ⟨v, hv⟩ := Option.isSome_iff_exists.mp
          (tocLookup_isSome_of_any acc k (hb ▸ hany))
        rw [hv]
        simp [Option.or]
      · rw [List.find?_cons_of_neg _ (by simpa using hb)]
    · rw [if_neg hany, tocLookup_append_single, Option.or_assoc]
      congr 1
      by_cases hb : baseOf ft.1 = k
      · have hbeq : (baseOf ft.1 == k) = true := by simpa using hb
        rw [List.find?_cons_of_pos _ (by simpa using hb), hbeq]
        obtain ⟨f, t⟩ := ft
        simp [Option.or]
      · have hbeq : (baseOf ft.1 == k) = false := by simpa using hb
        rw [List.find?_cons_of_neg _ (by simpa using hb), hbeq]
        simp [Option.or]

lemma ef_foldl_keys_nodup (l : List (String × String)) :
    ∀ acc : List (String × String),
      ((acc.map Prod.fst).Nodup) → (((l.foldl efStep acc).map Prod.fst).Nodup) := by
  induction l with
  | nil => intro acc h; simpa using h
  | cons ft rest ih =>
    intro acc h
    rw [List.foldl_cons]
    apply ih
    unfold efStep
    by_cases hany : acc.any (fun p => p.1 == baseOf ft.1) = true
    · rw [if_pos hany]; exact h
    · rw [if_neg hany]
      rw [List.map_append]
      simp only [List.map_cons, List.map_nil]
      rw [List.nodup_append]
      refine ⟨h, List.nodup_singleton _, ?_⟩
      intro x hx hx1
      simp only [List.mem_singleton] at hx1
      subst hx1
      apply hany
      rw [List.any_eq_true]
      rw [List.mem_map] at hx
      obtain ⟨p, hp, hpeq⟩ := hx
      exact ⟨p, hp, by simp [hpeq]⟩

/-- C5: `eliminate_fragments` returns a mapping whose keys are exactly
the distinct base paths of the input keys (the part before the first
`"#"`), pairwise distinct, binding each base path to the title of the
first input entry (in input iteration order) whose base path equals it:
looking up any key in the result equals taking the first matching input
entry.  In particular the mapping
`{"ch1.html#s1": "Intro", "ch1.html#s2": "Intro", "ch2.html": "Body"}`
collapses to `{"ch1.html": "Intro", "ch2.html": "Body"}`. -/
theorem eliminate_fragments_first_seen :
    (∀ (toc : List (String × String)) (k : String),
        tocLookup (eliminate_fragments toc) k =
          (toc.find? (fun p => baseOf p.1 == k)).map (fun p => p.2)) ∧
    (∀ toc : List (String × String),
        ((eliminate_fragments toc).map Prod.fst).Nodup) ∧
    eliminate_fragments
        [("ch1.html#s1", "Intro"), ("ch1.html#s2", "Intro"), ("ch2.html", "Body")] =
      [("ch1.html", "Intro"), ("ch2.html", "Body")] := by
  refine ⟨fun toc k => ?_, fun toc => ?_, by decide⟩
  · unfold eliminate_fragments
    rw [ef_foldl_lookup]
    simp [tocLookup]
  · unfold eliminate_fragments
    exact ef_foldl_keys_nodup toc [] (by simp)

/-- C10: in `create_hierarchy`, a level-3 heading arriving while no
section is open does not open a subsection: the step lands in the shared
else branch, which opens an untitled section (heading null) and appends
the heading as an ordinary content item to it, leaving no subsection
open. -/
theorem create_hierarchy_h3_no_open_section (st : HState) (t : String)
    (hcur : st.cur = none) :
    hstep st (ContentItem.heading 3 t) =
      ⟨st.done, some ⟨none, [Node.item (ContentItem.heading 3 t)], none⟩⟩ := by
  obtain ⟨d, c⟩ := st
  cases c with
  | none => rfl
  | some o => simp at hcur

/-- Witness for C10 at the initial state and the heading "Details". -/
theorem create_hierarchy_h3_no_open_section_witness :
    (⟨[], none⟩ : HState).cur = none ∧
    hstep ⟨[], none⟩ (ContentItem.heading 3 "Details") =
      ⟨[], some ⟨none, [Node.item (ContentItem.heading 3 "Details")], none⟩⟩ :=
  ⟨rfl, create_hierarchy_h3_no_open_section ⟨[], none⟩ "Details" rfl⟩

/-- C7: the Paragraph Flattener is deterministic — two runs of
`extract_paragraphs` on the same hierarchy, metadata, token counter and
threshold yield identical record lists.  In this pure embedding the
function of the source is a mathematical function, so the two runs are
definitionally the same list; the Python source likewise reads but never
mutates its inputs. -/
theorem extract_paragraphs_deterministic (numTokens : String → Nat)
    (hierarchy : List KSec) (chapter author publisher title : Option String)
    (minTok : Nat) :
    extract_paragraphs numTokens hierarchy chapter author publisher title minTok =
      extract_paragraphs numTokens hierarchy chapter author publisher title minTok :=
  rfl

/-- C3 (amended): heading elements of levels 4-6 never open a Section or
Subsection — but not because they are captured as plain heading items:
`extract_content` does not scan `h4`/`h5`/`h6` tags at all.  Such an
element is outside the `find_all` tag list, every branch of the
classification yields nothing for it, and a document consisting of it
alone produces no ContentItem of any kind.  (Its text can still surface
indirectly: the block-descendant check of the `div`/`li` branch also
omits h4-h6, so a `div` whose only child is an h4 emits the heading text
as paragraph text of the `div` — the heading element itself is what is
never captured.) -/
theorem extract_content_h456_not_scanned (e : Element)
    (h : e.name ∈ (["h4", "h5", "h6"] : List String)) :
    e.name ∉ contentTags ∧ classifyElement e = [] ∧
      extract_content [e] = [] := by
  simp only [List.mem_cons, List.not_mem_nil, or_false] at h
  rcases h with h | h | h <;>
    exact ⟨by rw [h]; decide, by simp [classifyElement, h],
      by simp [extract_content, h, contentTags]⟩

/-- Witness for C3 at the concrete element `<h4>Notes</h4>`. -/
theorem extract_content_h456_not_scanned_witness :
    (("h4" : String) ∈ (["h4", "h5", "h6"] : List String)) ∧
    (("h4" : String) ∉ contentTags ∧
      classifyElement ⟨"h4", "Notes", "", "", [], false⟩ = [] ∧
      extract_content [⟨"h4", "Notes", "", "", [], false⟩] = []) :=
  ⟨by decide,
   extract_content_h456_not_scanned ⟨"h4", "Notes", "", "", [], false⟩ (by decide)⟩

/-- C3 counterexample: the claim says a level-4 heading "is still
captured by the Structural Extractor as a plain heading ContentItem
placed inside whatever container is open"; but on the one-element
document `<h4>Notes</h4>` the extractor emits no ContentItem at all, and
the hierarchy built from it is empty — the heading is dropped, not
captured. -/
theorem extract_content_h4_counterexample :
    extract_content [⟨"h4", "Notes", "", "", [], false⟩] = ([] : List ContentItem) ∧
    create_hierarchy (extract_content [⟨"h4", "Notes", "", "", [], false⟩]) =
      ([] : List Sec) :=
  ⟨rfl, rfl⟩

/-- C4: on a hierarchy whose first Section has the heading
`"CHAPTER 3. The Beginning"`, the Chapter/Title Resolver (modelled from
the spec, §4.2: its source is not part of the repository snapshot)
matches the chapter-number pattern, converts the captured numeral,
formats it as `"Chapter {n}"`, and takes the stripped remainder as the
title: the result is chapter `"Chapter 3"` and title `"The Beginning"`. -/
theorem resolver_chapter_three_the_beginning :
    determine_chapter_and_title [⟨some "CHAPTER 3. The Beginning", []⟩] =
      (some "Chapter 3", some "The Beginning") := rfl

lemma chunkLE_trans {α : Type} (a b c : α × ℚ) (hab : chunkLE a b = true)
    (hbc : chunkLE b c = true) : chunkLE a c = true := by
  simp only [chunkLE, decide_eq_true_eq] at *
  exact le_trans hbc hab

lemma chunkLE_total {α : Type} (a b : α × ℚ) :
    (chunkLE a b || chunkLE b a) = true := by
  simp only [chunkLE, Bool.or_eq_true, decide_eq_true_eq]
  exact le_total b.2 a.2

lemma find_similar_chunks_pairwise {α : Type} (sim : α → ℚ) (corpus : List α)
    (similarity_threshold : ℚ) (filter_limit : Nat)
    (max_similarity_delta : ℚ) :
    (find_similar_chunks sim corpus similarity_threshold filter_limit
        max_similarity_delta).Pairwise (fun a b => b.2 ≤ a.2) := by
  unfold find_similar_chunks
  have hp :
      (((corpus.map (fun c => (c, sim c))).filter
          (fun p => decide (similarity_threshold ≤ p.2))).mergeSort chunkLE).Pairwise
        (fun a b => chunkLE a b = true) :=
    List.sorted_mergeSort chunkLE_trans chunkLE_total _
  cases hr : ((corpus.map (fun c => (c, sim c))).filter
      (fun p => decide (similarity_threshold ≤ p.2))).mergeSort chunkLE with
  | nil => simp [hr]
  | cons top rest =>
    simp only [hr]
    rw [hr] at hp
    have hsub :
        (((top :: rest).filter
            (fun p => decide (top.2 - p.2 ≤ max_similarity_delta))).take
          filter_limit).Sublist (top :: rest) :=
      (List.take_sublist _ _).trans (List.filter_sublist _)
    exact (hp.sublist hsub).imp (fun h => by simpa [chunkLE] using h)

/-- C2: the list returned by the Similarity Retriever
(`search_vector_db` / `_retrieve_similar_chunks`) is ordered with
similarity non-increasing: for every adjacent pair, the earlier chunk's
similarity is greater than or equal to the later chunk's.  The scoring
and ranking body (`find_similar_chunks`) is modelled from the spec, since
it lives in the external genai_toolbox package. -/
theorem retrieval_similarity_non_increasing {α : Type} (sim : α → ℚ)
    (corpus : List α) (similarity_threshold : ℚ) (filter_limit : Nat)
    (max_similarity_delta : ℚ) :
    List.Chain' (fun a b => b.2 ≤ a.2)
        (search_vector_db sim corpus similarity_threshold filter_limit
          max_similarity_delta) ∧
    List.Chain' (fun a b => b.2 ≤ a.2)
        (retrieve_similar_chunks sim corpus similarity_threshold filter_limit
          max_similarity_delta) := by
  have hret : List.Chain' (fun a b : α × ℚ => b.2 ≤ a.2)
      (retrieve_similar_chunks sim corpus similarity_threshold filter_limit
        max_similarity_delta) := by
    unfold retrieve_similar_chunks
    by_cases h : (find_similar_chunks sim corpus similarity_threshold
        filter_limit max_similarity_delta).isEmpty
    · simp [h]
    · simp only [h, if_false]
      exact (find_similar_chunks_pairwise sim corpus similarity_threshold
        filter_limit max_similarity_delta).chain'
  exact ⟨hret, hret⟩

lemma collectKItem_eq_spec (title chapter author publisher s1 s2 : Option String)
    (it : ContentItem) :
    collectKItem title chapter author publisher ⟨it, s1, s2⟩ =
      (specItemParas s1 s2 it).map (buildRecord title chapter author publisher) := by
  cases it <;> rfl

lemma collect_mapped_items (title chapter author publisher s1 s2 : Option String)
    (c : List ContentItem) :
    (c.map (fun it => (⟨it, s1, s2⟩ : KItem))).flatMap
        (collectKItem title chapter author publisher) =
      (c.flatMap (specItemParas s1 s2)).map
        (buildRecord title chapter author publisher) := by
  induction c with
  | nil => rfl
  | cons it rest ih =>
    simp only [List.map_cons, List.flatMap_cons, List.map_append, ih]
    rw [collectKItem_eq_spec]

lemma collect_keyed_tail_eq_spec (title chapter author publisher : Option String)
    (secH : Option String) :
    ∀ (tail : List Node), goodTail tail = true → ∀ csub : Option String,
      collectNodes title chapter author publisher (keyNodes secH csub tail) =
        (tail.flatMap (specNodeParas secH)).map
          (buildRecord title chapter author publisher) := by
  intro tail
  induction tail with
  | nil => intro _ _; rfl
  | cons n rest ih =>
    intro hgood csub
    cases n with
    | item it => exact absurd hgood (by simp [goodTail])
    | subsection h c =>
      rw [goodTail] at hgood
      simp only [keyNodes, collectNodes, List.flatMap_cons, List.map_append]
      rw [← collectNodes, ih hgood (some h)]
      congr 1
      exact collect_mapped_items title chapter author publisher secH (some h) c

lemma collect_keyed_content_eq_spec (title chapter author publisher : Option String)
    (secH : Option String) :
    ∀ (c : List Node), goodContent c = true →
      collectNodes title chapter author publisher (keyNodes secH none c) =
        (c.flatMap (specNodeParas secH)).map
          (buildRecord title chapter author publisher) := by
  intro c
  induction c with
  | nil => intro _; rfl
  | cons n rest ih =>
    intro hgood
    cases n with
    | item it =>
      rw [goodContent] at hgood
      simp only [keyNodes, collectNodes, List.flatMap_cons, List.map_append]
      rw [← collectNodes, ih hgood]
      congr 1
      exact collectKItem_eq_spec title chapter author publisher secH none it
    | subsection h c' =>
      rw [goodContent] at hgood
      simp only [keyNodes, collectNodes, List.flatMap_cons, List.map_append]
      rw [← collectNodes,
        collect_keyed_tail_eq_spec title chapter author publisher secH rest hgood (some h)]
      congr 1
      exact collect_mapped_items title chapter author publisher secH (some h) c'

lemma add_keys_collect_eq_spec (title chapter author publisher : Option String) :
    ∀ (h : List Sec), goodHierarchy h = true →
      (add_hierarchy_keys h).flatMap
          (fun s => collectNodes title chapter author publisher s.content) =
        (specParagraphs h).map (buildRecord title chapter author publisher) := by
  intro h
  induction h with
  | nil => intro _; rfl
  | cons s rest ih =>
    intro hgood
    rw [goodHierarchy, List.all_cons, Bool.and_eq_true] at hgood
    simp only [add_hierarchy_keys, specParagraphs, List.map_cons, List.flatMap_cons,
      List.map_append]
    rw [← add_hierarchy_keys, ← specParagraphs, ih hgood.2]
    congr 1
    exact collect_keyed_content_eq_spec title chapter author publisher s.heading
      s.content hgood.1

/-- C6 (amended): for every hierarchy whose section contents have the
shape `create_hierarchy` produces (a prefix of plain items followed by
subsections only — `goodContent`), every metadata assignment, every token
counter and every threshold, a paragraph of the flattening walk appears
in the output of `extract_paragraphs` (after `add_hierarchy_keys`) if and
only if its token count reaches `min_paragraph_tokens`, and each retained
record carries exactly the section and subsection labels of its nearest
enclosing containers together with the supplied book metadata.  The
shape restriction is forced: `add_hierarchy_keys` lets
`current_subsection` persist across later siblings of a subsection, so a
plain item placed after a subsection in the same section would be stamped
with a subsection label although no subsection encloses it (see the
counterexample). -/
theorem extract_paragraphs_filter_and_labels (numTokens : String → Nat)
    (h : List Sec) (chapter author publisher title : Option String)
    (minTok : Nat) (hgood : goodHierarchy h = true) :
    extract_paragraphs numTokens (add_hierarchy_keys h) chapter author publisher
        title minTok =
      ((specParagraphs h).filter
          (fun sp => minTok ≤ numTokens sp.text)).map
        (buildRecord title chapter author publisher) := by
  unfold extract_paragraphs
  rw [add_keys_collect_eq_spec title chapter author publisher h hgood,
    List.filter_map]
  rfl

/-- Witness for C6: a hierarchy with one titled section holding a long
paragraph and a subsection holding a short one; with a 3-token minimum
the long paragraph is kept with its labels and the short one is dropped. -/
theorem extract_paragraphs_filter_and_labels_witness :
    goodHierarchy
        [⟨some "Intro", [Node.item (ContentItem.paragraph "a b c d"),
          Node.subsection "Det" [ContentItem.paragraph "x y"]]⟩] = true ∧
    extract_paragraphs (fun s => (wordsAux s.toList []).length)
        (add_hierarchy_keys
          [⟨some "Intro", [Node.item (ContentItem.paragraph "a b c d"),
            Node.subsection "Det" [ContentItem.paragraph "x y"]]⟩])
        (some "Ch1") (some "Au") (some "Pub") (some "Ti") 3 =
      ((specParagraphs
          [⟨some "Intro", [Node.item (ContentItem.paragraph "a b c d"),
            Node.subsection "Det" [ContentItem.paragraph "x y"]]⟩]).filter
          (fun sp => 3 ≤ (fun s => (wordsAux s.toList []).length) sp.text)).map
        (buildRecord (some "Ti") (some "Ch1") (some "Au") (some "Pub")) :=
  ⟨rfl,
   extract_paragraphs_filter_and_labels (fun s => (wordsAux s.toList []).length)
     [⟨some "Intro", [Node.item (ContentItem.paragraph "a b c d"),
       Node.subsection "Det" [ContentItem.paragraph "x y"]]⟩]
     (some "Ch1") (some "Au") (some "Pub") (some "Ti") 3 rfl⟩

/-- C6 counterexample: the claim quantifies over every hierarchy, but on
the hierarchy whose section `"S"` holds a subsection `"T"` followed by a
plain paragraph `"a b c"`, the flattened record is stamped with
subsection label `"T"` although the paragraph's nearest enclosing
container is the section itself (no subsection encloses it): the code
output differs from the nearest-enclosing-label reading of the claim. -/
theorem extract_paragraphs_labels_counterexample :
    extract_paragraphs String.length
        (add_hierarchy_keys
          [⟨some "S", [Node.subsection "T" [],
            Node.item (ContentItem.paragraph "a b c")]⟩])
        none none none none 1 ≠
      ((specParagraphs
          [⟨some "S", [Node.subsection "T" [],
            Node.item (ContentItem.paragraph "a b c")]⟩]).filter
          (fun sp => 1 ≤ String.length sp.text)).map
        (buildRecord none none none none) := by
  decide

end BookChat
